import Mathlib

/-!
Verification of the repetition-detection and technique-validation engine of
the cyber_coach repository, shallowly embedded from
`src/analysis/exercise_rules.py` (class `ShoulderPressRules`) and from the
dual-view synchronisation block of `src/cyber_trainer/camera.py` (`main`).

Angles are embedded as rationals (the Python code uses floats but every
operation used here -- comparison, mean, min, max, subtraction -- is exact on
the inputs we reason about), frame indices as integers (the engine uses `-1`
as a sentinel for "no open valley").
-/

namespace CyberCoach

/-- `JointStatus` from `exercise_rules.py`: OK / ERROR / MISSING. -/
inductive JointStatus where
  | ok
  | error
  | missing
deriving DecidableEq, Repr

/-- The `Repetition` dataclass from `exercise_rules.py`. -/
structure Repetition where
  start_frame : Int
  end_frame : Int
  min_angle : ℚ
  max_angle : ℚ
  rom : ℚ
  is_complete : Bool
  errors : List String
deriving DecidableEq, Repr

/-- A per-frame joint-angle map (Python `Dict[str, Optional[float]]`),
embedded as an association list; `none` is a joint that is present in the
dict but has no angle value. -/
abbrev JointAngleFrame := List (String × Option ℚ)

/-- First-match association-list lookup (Python dict indexing; dict keys are
unique so first match is the match). -/
def lookupJoint (j : String) : List (String × α) → Option α
  | [] => none
  | (k, v) :: rest => if k = j then some v else lookupJoint j rest

/-- The per-view configuration chosen in `ShoulderPressRules.__init__`. -/
structure RulesConfig where
  angle_ranges : List (String × ℚ × ℚ)
  rom_thresholds : List (String × ℚ × ℚ)
  primary_joints : List String
deriving DecidableEq, Repr

/-- `ShoulderPressRules.FRONT_VIEW_RANGES`. -/
def FRONT_VIEW_RANGES : List (String × ℚ × ℚ) :=
  [("left_shoulder", 35, 180), ("right_shoulder", 35, 180),
   ("left_elbow", 35, 180), ("right_elbow", 35, 180)]

/-- `ShoulderPressRules.SIDE_VIEW_RANGES`. -/
def SIDE_VIEW_RANGES : List (String × ℚ × ℚ) :=
  [("left_shoulder", 0, 160), ("left_elbow", 8, 180), ("left_hip", 100, 133)]

/-- `ShoulderPressRules.FRONT_VIEW_ROM_THRESHOLDS`. -/
def FRONT_VIEW_ROM_THRESHOLDS : List (String × ℚ × ℚ) :=
  [("left_shoulder", 50, 150), ("right_shoulder", 50, 150),
   ("left_elbow", 50, 160), ("right_elbow", 50, 160)]

/-- `ShoulderPressRules.SIDE_VIEW_ROM_THRESHOLDS`. -/
def SIDE_VIEW_ROM_THRESHOLDS : List (String × ℚ × ℚ) :=
  [("left_shoulder", 10, 140), ("left_elbow", 20, 160)]

/-- `ShoulderPressRules.MIN_ROM`. -/
def MIN_ROM : ℚ := 100

/-- `ShoulderPressRules.PEAK_DETECTION_WINDOW`. -/
def PEAK_DETECTION_WINDOW : Nat := 10

/-- The `TOLERANCE` constant inside `_check_rom_thresholds`. -/
def TOLERANCE : ℚ := 20

/-- The configuration selected by `__init__` for `view_type='front'`. -/
def frontConfig : RulesConfig :=
  { angle_ranges := FRONT_VIEW_RANGES
    rom_thresholds := FRONT_VIEW_ROM_THRESHOLDS
    primary_joints := ["left_shoulder", "right_shoulder", "left_elbow", "right_elbow"] }

/-- The configuration selected by `__init__` for `view_type='side'`. -/
def sideConfig : RulesConfig :=
  { angle_ranges := SIDE_VIEW_RANGES
    rom_thresholds := SIDE_VIEW_ROM_THRESHOLDS
    primary_joints := ["left_shoulder", "left_elbow"] }

/-- `ShoulderPressRules.check_angles`: iterate over the frame's entries,
skip joints not configured in `ranges`, report MISSING for `None` angles,
OK inside the inclusive range, ERROR outside. -/
def check_angles (ranges : List (String × ℚ × ℚ)) :
    JointAngleFrame → List (String × JointStatus)
  | [] => []
  | (j, a) :: rest =>
    match lookupJoint j ranges with
    | none => check_angles ranges rest
    | some (lo, hi) =>
      match a with
      | none => (j, JointStatus.missing) :: check_angles ranges rest
      | some x =>
        (j, if lo ≤ x ∧ x ≤ hi then JointStatus.ok else JointStatus.error) ::
          check_angles ranges rest

/-- `ShoulderPressRules.has_angle_errors`: any reported status is ERROR. -/
def has_angle_errors (ranges : List (String × ℚ × ℚ)) (angles : JointAngleFrame) : Bool :=
  (check_angles ranges angles).any (fun p => p.2 = JointStatus.error)

/-- `ShoulderPressRules._get_average_angle`: arithmetic mean of the primary
joints whose angle is present (`angles.get(j) is not None`); `none` when no
primary joint has a value. -/
def get_average_angle (primary : List String) (angles : JointAngleFrame) : Option ℚ :=
  let valid := primary.filterMap (fun j =>
    match lookupJoint j angles with
    | some (some a) => some a
    | _ => none)
  if valid = [] then none else some (valid.sum / valid.length)

/-- `ShoulderPressRules._check_rom_thresholds`: the ROM floor (`MIN_ROM`)
plus coverage of any one joint's `(low, high)` thresholds within `TOLERANCE`. -/
def check_rom_thresholds (thresholds : List (String × ℚ × ℚ))
    (min_angle max_angle : ℚ) : Bool :=
  if max_angle - min_angle < MIN_ROM then false
  else thresholds.any (fun e =>
    decide (min_angle ≤ e.2.1 + TOLERANCE) && decide (e.2.2 - TOLERANCE ≤ max_angle))

/-- Value of the `idx`-th entry of the signal history (Python
`self.angle_history[idx][1]`; indices used by the engine are in bounds). -/
def histVal (hist : List (Int × ℚ)) (idx : Nat) : ℚ :=
  (hist.getD idx (0, 0)).2

/-- The symmetric comparison window of indices examined by
`_is_local_maximum` / `_is_local_minimum` around `idx`. -/
def windowIdxs (idx : Nat) : List Nat :=
  (List.range (2 * PEAK_DETECTION_WINDOW + 1)).map
    (fun k => idx - PEAK_DETECTION_WINDOW + k)

/-- `ShoulderPressRules._is_local_maximum`: `idx` has a full window on both
sides and its value strictly dominates every other value in the window. -/
def is_local_maximum (hist : List (Int × ℚ)) (idx : Nat) : Bool :=
  if idx < PEAK_DETECTION_WINDOW ∨ hist.length ≤ idx + PEAK_DETECTION_WINDOW then
    false
  else
    (windowIdxs idx).all (fun i =>
      decide (i = idx) || decide (histVal hist i < histVal hist idx))

/-- `ShoulderPressRules._is_local_minimum`: dual of `is_local_maximum`. -/
def is_local_minimum (hist : List (Int × ℚ)) (idx : Nat) : Bool :=
  if idx < PEAK_DETECTION_WINDOW ∨ hist.length ≤ idx + PEAK_DETECTION_WINDOW then
    false
  else
    (windowIdxs idx).all (fun i =>
      decide (i = idx) || decide (histVal hist idx < histVal hist i))

/-- Python `min` over a nonempty list (the `[]` case is never used by the
engine, which guards with `if frames_between:`). -/
def listMin : List ℚ → ℚ
  | [] => 0
  | x :: xs => xs.foldl min x

/-- Python `max` over a nonempty list. -/
def listMax : List ℚ → ℚ
  | [] => 0
  | x :: xs => xs.foldl max x

/-- The mutable state of one `ShoulderPressRules` instance. -/
structure EngineState where
  angle_history : List (Int × ℚ)
  last_peak_frame : Int
  last_valley_frame : Int
  last_peak_angle : Option ℚ
  last_valley_angle : Option ℚ
  repetitions : List Repetition
deriving DecidableEq, Repr

/-- The state set up by `ShoulderPressRules.__init__`. -/
def initState : EngineState :=
  { angle_history := []
    last_peak_frame := -1
    last_valley_frame := -1
    last_peak_angle := none
    last_valley_angle := none
    repetitions := [] }

/-- The failure message attached by `update_repetition_tracking` to an
incomplete repetition. -/
def ROM_FAIL_MSG : String := "ROM za mały lub nie osiągnięto progów"

/-- `ShoulderPressRules.update_repetition_tracking`, returning the updated
state together with the optional emitted `Repetition`.  Mirrors the Python
control flow: reduce the frame to a scalar (bail out with no state change if
none), append to the history and evict the oldest entry past capacity 200,
bail out until `2*WINDOW+1` samples exist, then examine the candidate at
`len - WINDOW - 1`: on a local maximum with an open valley, build the
repetition from every history sample between the valley frame and the
candidate frame; otherwise record the peak; on a local minimum record the
valley. -/
def update_repetition_tracking (cfg : RulesConfig) (s : EngineState)
    (angles : JointAngleFrame) (frame_idx : Int) :
    EngineState × Option Repetition :=
  match get_average_angle cfg.primary_joints angles with
  | none => (s, none)
  | some avg_angle =>
    let hist0 := s.angle_history ++ [(frame_idx, avg_angle)]
    let hist := if 200 < hist0.length then hist0.drop 1 else hist0
    if hist.length < 2 * PEAK_DETECTION_WINDOW + 1 then
      ({ s with angle_history := hist }, none)
    else
      let check_idx := hist.length - PEAK_DETECTION_WINDOW - 1
      let check := hist.getD check_idx (0, 0)
      if is_local_maximum hist check_idx then
        if 0 ≤ s.last_valley_frame ∧ s.last_valley_angle.isSome then
          let frames_between := (hist.filter (fun p =>
            decide (s.last_valley_frame ≤ p.1) && decide (p.1 ≤ check.1))).map Prod.snd
          if frames_between = [] then
            ({ s with angle_history := hist,
                      last_peak_frame := check.1,
                      last_peak_angle := some check.2 }, none)
          else
            let min_angle := listMin frames_between
            let max_angle := listMax frames_between
            let is_complete := check_rom_thresholds cfg.rom_thresholds min_angle max_angle
            let rep : Repetition :=
              { start_frame := s.last_valley_frame
                end_frame := check.1
                min_angle := min_angle
                max_angle := max_angle
                rom := max_angle - min_angle
                is_complete := is_complete
                errors := if is_complete then [] else [ROM_FAIL_MSG] }
            ({ s with angle_history := hist,
                      repetitions := s.repetitions ++ [rep],
                      last_valley_frame := -1,
                      last_valley_angle := none }, some rep)
        else
          ({ s with angle_history := hist,
                    last_peak_frame := check.1,
                    last_peak_angle := some check.2 }, none)
      else if is_local_minimum hist check_idx then
        ({ s with angle_history := hist,
                  last_valley_frame := check.1,
                  last_valley_angle := some check.2 }, none)
      else
        ({ s with angle_history := hist }, none)

/-- Feed a list of `(frame, frame_idx)` inputs through the engine in order. -/
def runEngine (cfg : RulesConfig) (s : EngineState) :
    List (JointAngleFrame × Int) → EngineState
  | [] => s
  | (a, f) :: rest => runEngine cfg (update_repetition_tracking cfg s a f).1 rest

/-- The dictionary returned by `get_repetition_summary`. -/
structure RepetitionSummary where
  total_reps : Nat
  complete_reps : Nat
  incomplete_reps : Nat
  avg_rom : ℚ
deriving DecidableEq, Repr

/-- `ShoulderPressRules.get_repetition_summary`: zeros on an empty log,
otherwise the log length, the count of complete repetitions, their
difference, and the mean ROM over all repetitions. -/
def get_repetition_summary (reps : List Repetition) : RepetitionSummary :=
  if reps = [] then
    { total_reps := 0, complete_reps := 0, incomplete_reps := 0, avg_rom := 0 }
  else
    let complete := reps.filter (fun r => r.is_complete)
    { total_reps := reps.length
      complete_reps := complete.length
      incomplete_reps := reps.length - complete.length
      avg_rom := (reps.map (fun r => r.rom)).sum / (reps.length : ℚ) }

/-- The two camera views handled by the dual-view loop in `camera.py`. -/
inductive View where
  | front
  | side
deriving DecidableEq, Repr

/-- The `other_view = 'side' if view_name == 'front' else 'front'` switch. -/
def otherView : View → View
  | View.front => View.side
  | View.side => View.front

/-- The dual-view synchronisation state of `camera.py:main`: the
`confirmed_reps` counter plus `recent_rep_by_view`, which stores per view an
optional `(completed_rep, frame_idx, completed_rep.is_complete)` triple. -/
structure SyncState where
  confirmed_reps : Nat
  recent_front : Option (Repetition × Int × Bool)
  recent_side : Option (Repetition × Int × Bool)
deriving DecidableEq, Repr

/-- `recent_rep_by_view.get(view)`. -/
def getRecent (st : SyncState) : View → Option (Repetition × Int × Bool)
  | View.front => st.recent_front
  | View.side => st.recent_side

/-- Store or pop (`none`) a view's entry of `recent_rep_by_view`. -/
def setRecent (st : SyncState) : View → Option (Repetition × Int × Bool) → SyncState
  | View.front, v => { st with recent_front := v }
  | View.side, v => { st with recent_side := v }

/-- `SYNC_FRAME_THRESHOLD` in `camera.py`. -/
def SYNC_FRAME_THRESHOLD : Int := 300

/-- Sync state at program start: `confirmed_reps = 0`,
`recent_rep_by_view = {}`. -/
def initSync : SyncState :=
  { confirmed_reps := 0, recent_front := none, recent_side := none }

/-- The dual-view block of `camera.py:main` executed when
`update_repetition_tracking` returns a completed repetition in view `view`
at loop index `frame_idx` (the code under `if enable_dual_view:`): store the
repetition in `recent_rep_by_view[view]`; if the other view holds an entry,
increment `confirmed_reps` when the start frames are within
`SYNC_FRAME_THRESHOLD` and both `is_complete` flags hold, then pop both
entries; if the other view holds no entry, fall to the `else` branch, which
increments `confirmed_reps` whenever the repetition is complete. -/
def syncOnCompletedRep (st : SyncState) (view : View) (rep : Repetition)
    (frame_idx : Int) : SyncState :=
  let st1 := setRecent st view (some (rep, frame_idx, rep.is_complete))
  match getRecent st1 (otherView view) with
  | some (other_rep, _, other_ok) =>
    let st2 :=
      if |other_rep.start_frame - rep.start_frame| < SYNC_FRAME_THRESHOLD then
        if rep.is_complete && other_ok then
          { st1 with confirmed_reps := st1.confirmed_reps + 1 }
        else st1
      else st1
    setRecent (setRecent st2 (otherView view) none) view none
  | none =>
    if rep.is_complete then
      { st1 with confirmed_reps := st1.confirmed_reps + 1 }
    else st1

/-- Scalar signal of the concrete single-joint run used below: a descent to
a valley of 20° at frame 10, an ascent to a peak of 150° at frame 24, and a
descent long enough for the lagged detector to examine the peak. -/
def cexVals : List ℚ :=
  [130, 120, 110, 100, 90, 80, 70, 60, 50, 40, 20,
   30, 40, 50, 60, 70, 80, 90, 100, 110, 120, 130, 140, 145, 150,
   149, 140, 130, 120, 110, 100, 90, 80, 70, 60, 50]

/-- A frame whose only entry is `left_shoulder` at the given angle (the
front view then reduces it to exactly that angle). -/
def oneJointFrame (v : ℚ) : JointAngleFrame := [("left_shoulder", some v)]

/-- The concrete input stream: frame `t` carries `left_shoulder = cexVals[t]`. -/
def cexInputs : List (JointAngleFrame × Int) :=
  cexVals.enum.map (fun p => (oneJointFrame p.2, (p.1 : Int)))

/-- A small concrete engine state with an open valley at frame 0 and a
20-sample signal history whose value ascends to 150 at frame 10 and then
descends, so that the next ingested sample makes frame 10 a detected peak. -/
def smallState : EngineState :=
  { angle_history := (List.range 20).map
      (fun i => ((i : Int), (150 : ℚ) - 13 * |(i : ℚ) - 10|))
    last_peak_frame := -1
    last_valley_frame := 0
    last_peak_angle := none
    last_valley_angle := some 20
    repetitions := [] }

/-- The single engine step on `smallState` that detects the peak at frame 10
and emits a repetition. -/
def smallStep : EngineState × Option Repetition :=
  update_repetition_tracking frontConfig smallState (oneJointFrame 20) 20

/-- The repetition emitted by `smallStep`. -/
def smallRep : Repetition :=
  { start_frame := 0, end_frame := 10, min_angle := 20, max_angle := 150,
    rom := 130, is_complete := true, errors := [] }

/-- The per-joint status the specification describes for a configured joint:
`Missing` when the angle is absent, `Ok` inside the inclusive range, `Error`
outside (statement vocabulary for the claims about `check_angles`). -/
def statusOf (a : Option ℚ) (lo hi : ℚ) : JointStatus :=
  match a with
  | none => JointStatus.missing
  | some x => if lo ≤ x ∧ x ≤ hi then JointStatus.ok else JointStatus.error

/-- A flat 21-sample history (every value 7): every candidate ties with its
neighbours. -/
def flatHist : List (Int × ℚ) :=
  (List.range 21).map (fun i => ((i : Int), (7 : ℚ)))

/-- A concrete completed front-view repetition (start frame 100). -/
def frontRep : Repetition :=
  { start_frame := 100, end_frame := 160, min_angle := 20, max_angle := 150,
    rom := 130, is_complete := true, errors := [] }

/-- A concrete completed side-view repetition (start frame 150, 50 frames
from `frontRep` — well inside `SYNC_FRAME_THRESHOLD`). -/
def sideRep : Repetition :=
  { start_frame := 150, end_frame := 210, min_angle := 15, max_angle := 145,
    rom := 130, is_complete := true, errors := [] }

/-- The repetition log of the spec's worked summary example: ROMs
`[120, 100, 80]`, completeness `[true, true, false]`. -/
def demoReps : List Repetition :=
  [{ start_frame := 0, end_frame := 10, min_angle := 20, max_angle := 140,
     rom := 120, is_complete := true, errors := [] },
   { start_frame := 11, end_frame := 20, min_angle := 40, max_angle := 140,
     rom := 100, is_complete := true, errors := [] },
   { start_frame := 21, end_frame := 30, min_angle := 60, max_angle := 140,
     rom := 80, is_complete := false, errors := [ROM_FAIL_MSG] }]

/- ### Helper lemmas -/

theorem foldl_min_mem (xs : List ℚ) (a : ℚ) :
    xs.foldl min a = a ∨ xs.foldl min a ∈ xs := by
  induction xs generalizing a with
  | nil => exact Or.inl rfl
  | cons y ys ih =>
    rcases ih (min a y) with h | h
    · rcases min_choice a y with hm | hm
      · exact Or.inl (by rw [List.foldl_cons, h, hm])
      · exact Or.inr (by rw [List.foldl_cons, h, hm]; exact List.mem_cons_self _ _)
    · exact Or.inr (List.mem_cons_of_mem _ h)

theorem foldl_min_le_init (xs : List ℚ) (a : ℚ) : xs.foldl min a ≤ a := by
  induction xs generalizing a with
  | nil => exact le_refl a
  | cons y ys ih =>
    exact le_trans (ih (min a y)) (min_le_left a y)

theorem foldl_min_le_mem (xs : List ℚ) (a x : ℚ) (hx : x ∈ xs) :
    xs.foldl min a ≤ x := by
  induction xs generalizing a with
  | nil => cases hx
  | cons y ys ih =>
    rcases List.mem_cons.mp hx with h | h
    · subst h
      exact le_trans (foldl_min_le_init ys (min a x)) (min_le_right a x)
    · exact ih (min a y) h

theorem foldl_max_mem (xs : List ℚ) (a : ℚ) :
    xs.foldl max a = a ∨ xs.foldl max a ∈ xs := by
  induction xs generalizing a with
  | nil => exact Or.inl rfl
  | cons y ys ih =>
    rcases ih (max a y) with h | h
    · rcases max_choice a y with hm | hm
      · exact Or.inl (by rw [List.foldl_cons, h, hm])
      · exact Or.inr (by rw [List.foldl_cons, h, hm]; exact List.mem_cons_self _ _)
    · exact Or.inr (List.mem_cons_of_mem _ h)

theorem foldl_max_init_le (xs : List ℚ) (a : ℚ) : a ≤ xs.foldl max a := by
  induction xs generalizing a with
  | nil => exact le_refl a
  | cons y ys ih =>
    exact le_trans (le_max_left a y) (ih (max a y))

theorem foldl_max_mem_le (xs : List ℚ) (a x : ℚ) (hx : x ∈ xs) :
    x ≤ xs.foldl max a := by
  induction xs generalizing a with
  | nil => cases hx
  | cons y ys ih =>
    rcases List.mem_cons.mp hx with h | h
    · subst h
      exact le_trans (le_max_right a x) (foldl_max_init_le ys (max a x))
    · exact ih (max a y) h

theorem listMin_mem (l : List ℚ) (h : l ≠ []) : listMin l ∈ l := by
  cases l with
  | nil => exact absurd rfl h
  | cons x xs =>
    show xs.foldl min x ∈ x :: xs
    rcases foldl_min_mem xs x with h' | h'
    · rw [h']; exact List.mem_cons_self _ _
    · exact List.mem_cons_of_mem _ h'

theorem listMin_le (l : List ℚ) (x : ℚ) (hx : x ∈ l) : listMin l ≤ x := by
  cases l with
  | nil => cases hx
  | cons y ys =>
    rcases List.mem_cons.mp hx with h | h
    · subst h; exact foldl_min_le_init ys x
    · exact foldl_min_le_mem ys y x h

theorem listMax_mem (l : List ℚ) (h : l ≠ []) : listMax l ∈ l := by
  cases l with
  | nil => exact absurd rfl h
  | cons x xs =>
    show xs.foldl max x ∈ x :: xs
    rcases foldl_max_mem xs x with h' | h'
    · rw [h']; exact List.mem_cons_self _ _
    · exact List.mem_cons_of_mem _ h'

theorem le_listMax (l : List ℚ) (x : ℚ) (hx : x ∈ l) : x ≤ listMax l := by
  cases l with
  | nil => cases hx
  | cons y ys =>
    rcases List.mem_cons.mp hx with h | h
    · subst h; exact foldl_max_init_le ys x
    · exact foldl_max_mem_le ys y x h


theorem update_some_eq {cfg : RulesConfig} {s : EngineState} {angles : JointAngleFrame}
    {f : Int} {s' : EngineState} {rep : Repetition}
    (h : update_repetition_tracking cfg s angles f = (s', some rep)) :
    ∃ fb : List ℚ, fb ≠ [] ∧
      fb = (s'.angle_history.filter (fun p =>
            decide (rep.start_frame ≤ p.1) && decide (p.1 ≤ rep.end_frame))).map Prod.snd ∧
      rep.min_angle = listMin fb ∧
      rep.max_angle = listMax fb ∧
      rep.rom = rep.max_angle - rep.min_angle ∧
      rep.is_complete = check_rom_thresholds cfg.rom_thresholds rep.min_angle rep.max_angle ∧
      rep.errors = (if rep.is_complete = true then [] else [ROM_FAIL_MSG]) ∧
      s'.repetitions = s.repetitions ++ [rep] := by
  unfold update_repetition_tracking at h
  split at h
  · exact absurd (congrArg Prod.snd h) (by simp)
  · dsimp only at h
    generalize hh : (if 200 < (s.angle_history ++ [(f, _)]).length then
        List.drop 1 (s.angle_history ++ [(f, _)]) else s.angle_history ++ [(f, _)]) = hist at h
    split at h
    · exact absurd (congrArg Prod.snd h) (by simp)
    · split at h
      · split at h
        · split at h
          · exact absurd (congrArg Prod.snd h) (by simp)
          · next hfb =>
            injection h with h1 h2
            injection h2 with h3
            subst h1
            subst h3
            refine ⟨_, hfb, ?_, rfl, rfl, rfl, rfl, rfl, rfl⟩
            rfl
        · exact absurd (congrArg Prod.snd h) (by simp)
      · split at h
        · exact absurd (congrArg Prod.snd h) (by simp)
        · exact absurd (congrArg Prod.snd h) (by simp)

theorem mem_windowIdxs (idx j : Nat) (hW : PEAK_DETECTION_WINDOW ≤ idx)
    (h1 : idx - PEAK_DETECTION_WINDOW ≤ j) (h2 : j ≤ idx + PEAK_DETECTION_WINDOW) :
    j ∈ windowIdxs idx := by
  unfold windowIdxs
  refine List.mem_map.mpr ⟨j - (idx - PEAK_DETECTION_WINDOW), List.mem_range.mpr (by omega), by omega⟩

theorem is_local_maximum_spec {hist : List (Int × ℚ)} {idx : Nat}
    (h : is_local_maximum hist idx = true) :
    PEAK_DETECTION_WINDOW ≤ idx ∧ idx + PEAK_DETECTION_WINDOW < hist.length ∧
    ∀ j ∈ windowIdxs idx, j ≠ idx → histVal hist j < histVal hist idx := by
  unfold is_local_maximum at h
  split at h
  · cases h
  · next hg =>
    push_neg at hg
    refine ⟨hg.1, by omega, ?_⟩
    intro j hj hne
    have := List.all_eq_true.mp h j hj
    simp only [Bool.or_eq_true, decide_eq_true_eq] at this
    tauto

theorem is_local_minimum_spec {hist : List (Int × ℚ)} {idx : Nat}
    (h : is_local_minimum hist idx = true) :
    PEAK_DETECTION_WINDOW ≤ idx ∧ idx + PEAK_DETECTION_WINDOW < hist.length ∧
    ∀ j ∈ windowIdxs idx, j ≠ idx → histVal hist idx < histVal hist j := by
  unfold is_local_minimum at h
  split at h
  · cases h
  · next hg =>
    push_neg at hg
    refine ⟨hg.1, by omega, ?_⟩
    intro j hj hne
    have := List.all_eq_true.mp h j hj
    simp only [Bool.or_eq_true, decide_eq_true_eq] at this
    tauto

theorem not_max_and_min (hist : List (Int × ℚ)) (idx : Nat) :
    ¬(is_local_maximum hist idx = true ∧ is_local_minimum hist idx = true) := by
  rintro ⟨hmax, hmin⟩
  obtain ⟨hW, hlen, hmax'⟩ := is_local_maximum_spec hmax
  obtain ⟨-, -, hmin'⟩ := is_local_minimum_spec hmin
  have hW1 : 1 ≤ PEAK_DETECTION_WINDOW := by norm_num [PEAK_DETECTION_WINDOW]
  have hmem : idx - 1 ∈ windowIdxs idx :=
    mem_windowIdxs idx (idx - 1) hW (by omega) (by omega)
  have hne : idx - 1 ≠ idx := by omega
  exact absurd (hmax' _ hmem hne) (not_lt_of_lt (hmin' _ hmem hne))

theorem tie_disqualifies (hist : List (Int × ℚ)) (idx j : Nat)
    (hne : j ≠ idx) (h1 : idx - PEAK_DETECTION_WINDOW ≤ j)
    (h2 : j ≤ idx + PEAK_DETECTION_WINDOW)
    (heq : histVal hist j = histVal hist idx) :
    is_local_maximum hist idx = false ∧ is_local_minimum hist idx = false := by
  constructor
  · cases hb : is_local_maximum hist idx with
    | false => rfl
    | true =>
      obtain ⟨hW, -, hall⟩ := is_local_maximum_spec hb
      exact absurd (hall j (mem_windowIdxs idx j hW h1 h2) hne) (by rw [heq]; exact lt_irrefl _)
  · cases hb : is_local_minimum hist idx with
    | false => rfl
    | true =>
      obtain ⟨hW, -, hall⟩ := is_local_minimum_spec hb
      exact absurd (hall j (mem_windowIdxs idx j hW h1 h2) hne) (by rw [heq]; exact lt_irrefl _)

theorem update_short_history {cfg : RulesConfig} {s : EngineState} {angles : JointAngleFrame}
    {f : Int} {s' : EngineState} {out : Option Repetition}
    (hlen : s.angle_history.length + 1 < 2 * PEAK_DETECTION_WINDOW + 1)
    (h : update_repetition_tracking cfg s angles f = (s', out)) :
    out = none ∧ s'.last_valley_frame = s.last_valley_frame ∧
    s'.last_valley_angle = s.last_valley_angle ∧
    s'.last_peak_frame = s.last_peak_frame ∧
    s'.last_peak_angle = s.last_peak_angle ∧
    s'.repetitions = s.repetitions := by
  simp only [PEAK_DETECTION_WINDOW] at hlen
  unfold update_repetition_tracking at h
  split at h
  · injection h with h1 h2
    subst h1
    exact ⟨h2.symm, rfl, rfl, rfl, rfl, rfl⟩
  · dsimp only at h
    split at h
    · next hevict =>
      exfalso
      simp only [List.length_append, List.length_cons, List.length_nil] at hevict
      omega
    · split at h
      · injection h with h1 h2
        subst h1
        exact ⟨h2.symm, rfl, rfl, rfl, rfl, rfl⟩
      · next hge =>
        exfalso
        simp only [PEAK_DETECTION_WINDOW, List.length_append, List.length_cons,
          List.length_nil, not_lt] at hge
        omega

theorem update_one_extremum {cfg : RulesConfig} {s : EngineState} {angles : JointAngleFrame}
    {f : Int} {s' : EngineState} {out : Option Repetition}
    (h : update_repetition_tracking cfg s angles f = (s', out)) :
    (s'.last_valley_frame = s.last_valley_frame ∧ s'.last_valley_angle = s.last_valley_angle) ∨
    (s'.last_peak_frame = s.last_peak_frame ∧ s'.last_peak_angle = s.last_peak_angle) := by
  unfold update_repetition_tracking at h
  split at h
  · injection h with h1 h2
    subst h1; exact Or.inl ⟨rfl, rfl⟩
  · dsimp only at h
    generalize hh : (if 200 < (s.angle_history ++ [(f, _)]).length then
        List.drop 1 (s.angle_history ++ [(f, _)]) else s.angle_history ++ [(f, _)]) = hist at h
    split at h
    · injection h with h1 h2
      subst h1; exact Or.inl ⟨rfl, rfl⟩
    · split at h
      · split at h
        · split at h
          · injection h with h1 h2
            subst h1; exact Or.inl ⟨rfl, rfl⟩
          · injection h with h1 h2
            subst h1; exact Or.inr ⟨rfl, rfl⟩
        · injection h with h1 h2
          subst h1; exact Or.inl ⟨rfl, rfl⟩
      · split at h
        · injection h with h1 h2
          subst h1; exact Or.inr ⟨rfl, rfl⟩
        · injection h with h1 h2
          subst h1; exact Or.inl ⟨rfl, rfl⟩

theorem update_none_reps {cfg : RulesConfig} {s : EngineState} {angles : JointAngleFrame}
    {f : Int} {s' : EngineState}
    (h : update_repetition_tracking cfg s angles f = (s', none)) :
    s'.repetitions = s.repetitions := by
  unfold update_repetition_tracking at h
  split at h
  · injection h with h1 h2
    subst h1; rfl
  · dsimp only at h
    generalize hh : (if 200 < (s.angle_history ++ [(f, _)]).length then
        List.drop 1 (s.angle_history ++ [(f, _)]) else s.angle_history ++ [(f, _)]) = hist at h
    split at h
    · injection h with h1 h2
      subst h1; rfl
    · split at h
      · split at h
        · split at h
          · injection h with h1 h2
            subst h1; rfl
          · exact absurd (congrArg Prod.snd h) (by simp)
        · injection h with h1 h2
          subst h1; rfl
      · split at h
        · injection h with h1 h2
          subst h1; rfl
        · injection h with h1 h2
          subst h1; rfl

theorem get_average_angle_none {primary : List String} {angles : JointAngleFrame}
    (h : ∀ j ∈ primary, ∀ a : ℚ, lookupJoint j angles ≠ some (some a)) :
    get_average_angle primary angles = none := by
  unfold get_average_angle
  have : primary.filterMap (fun j =>
      match lookupJoint j angles with
      | some (some a) => some a
      | _ => none) = [] := by
    rw [List.filterMap_eq_nil_iff]
    intro j hj
    cases hl : lookupJoint j angles with
    | none => rfl
    | some o =>
      cases o with
      | none => rfl
      | some a => exact absurd hl (h j hj a)
  simp [this]

theorem check_rom_thresholds_iff (thresholds : List (String × ℚ × ℚ)) (a b : ℚ) :
    check_rom_thresholds thresholds a b = true ↔
      (MIN_ROM ≤ b - a ∧
        ∃ e ∈ thresholds, a ≤ e.2.1 + TOLERANCE ∧ e.2.2 - TOLERANCE ≤ b) := by
  unfold check_rom_thresholds
  split
  · next hlt =>
    exact iff_of_false (by simp) (fun hc => absurd hlt (not_lt.mpr hc.1))
  · next hge =>
    rw [List.any_eq_true]
    simp only [Bool.and_eq_true, decide_eq_true_eq]
    exact ⟨fun he => ⟨not_lt.mp hge, he⟩, fun hc => hc.2⟩

theorem check_angles_key_configured (ranges : List (String × ℚ × ℚ))
    (angles : JointAngleFrame) (j : String) (st : JointStatus)
    (hmem : (j, st) ∈ check_angles ranges angles) :
    (lookupJoint j ranges).isSome = true := by
  induction angles with
  | nil => cases hmem
  | cons p rest ih =>
    obtain ⟨j0, a0⟩ := p
    cases hl : lookupJoint j0 ranges with
    | none =>
      rw [show check_angles ranges ((j0, a0) :: rest) = check_angles ranges rest by
        simp only [check_angles, hl]] at hmem
      exact ih hmem
    | some lohi =>
      obtain ⟨lo0, hi0⟩ := lohi
      cases a0 with
      | none =>
        rw [show check_angles ranges ((j0, none) :: rest) =
            (j0, JointStatus.missing) :: check_angles ranges rest by
          simp only [check_angles, hl]] at hmem
        rcases List.mem_cons.mp hmem with hp | hmem'
        · obtain ⟨hj, -⟩ := Prod.mk.inj hp
          subst hj; rw [hl]; rfl
        · exact ih hmem'
      | some x =>
        rw [show check_angles ranges ((j0, some x) :: rest) =
            (j0, if lo0 ≤ x ∧ x ≤ hi0 then JointStatus.ok else JointStatus.error) ::
              check_angles ranges rest by
          simp only [check_angles, hl]] at hmem
        rcases List.mem_cons.mp hmem with hp | hmem'
        · obtain ⟨hj, -⟩ := Prod.mk.inj hp
          subst hj; rw [hl]; rfl
        · exact ih hmem'

theorem check_angles_reports (ranges : List (String × ℚ × ℚ))
    (angles : JointAngleFrame) (j : String) (a : Option ℚ) (lo hi : ℚ)
    (hmem : (j, a) ∈ angles) (hlk : lookupJoint j ranges = some (lo, hi)) :
    (j, statusOf a lo hi) ∈ check_angles ranges angles := by
  induction angles with
  | nil => cases hmem
  | cons p rest ih =>
    obtain ⟨j0, a0⟩ := p
    rcases List.mem_cons.mp hmem with hp | hmem'
    · obtain ⟨hj, ha⟩ := Prod.mk.inj hp
      subst hj; subst ha
      cases a with
      | none =>
        rw [show check_angles ranges ((j, none) :: rest) =
            (j, JointStatus.missing) :: check_angles ranges rest by
          simp only [check_angles, hlk]]
        exact List.mem_cons_self _ _
      | some x =>
        rw [show check_angles ranges ((j, some x) :: rest) =
            (j, if lo ≤ x ∧ x ≤ hi then JointStatus.ok else JointStatus.error) ::
              check_angles ranges rest by
          simp only [check_angles, hlk]]
        exact List.mem_cons_self _ _
    · cases hl : lookupJoint j0 ranges with
      | none =>
        rw [show check_angles ranges ((j0, a0) :: rest) = check_angles ranges rest by
          simp only [check_angles, hl]]
        exact ih hmem'
      | some lohi =>
        obtain ⟨lo0, hi0⟩ := lohi
        cases a0 with
        | none =>
          rw [show check_angles ranges ((j0, none) :: rest) =
              (j0, JointStatus.missing) :: check_angles ranges rest by
            simp only [check_angles, hl]]
          exact List.mem_cons_of_mem _ (ih hmem')
        | some x =>
          rw [show check_angles ranges ((j0, some x) :: rest) =
              (j0, if lo0 ≤ x ∧ x ≤ hi0 then JointStatus.ok else JointStatus.error) ::
                check_angles ranges rest by
            simp only [check_angles, hl]]
          exact List.mem_cons_of_mem _ (ih hmem')

theorem check_angles_key_in_frame (ranges : List (String × ℚ × ℚ))
    (angles : JointAngleFrame) (j : String) (st : JointStatus)
    (hmem : (j, st) ∈ check_angles ranges angles) :
    ∃ a, (j, a) ∈ angles := by
  induction angles with
  | nil => cases hmem
  | cons p rest ih =>
    obtain ⟨j0, a0⟩ := p
    cases hl : lookupJoint j0 ranges with
    | none =>
      rw [show check_angles ranges ((j0, a0) :: rest) = check_angles ranges rest by
        simp only [check_angles, hl]] at hmem
      obtain ⟨a, ha⟩ := ih hmem
      exact ⟨a, List.mem_cons_of_mem _ ha⟩
    | some lohi =>
      obtain ⟨lo0, hi0⟩ := lohi
      cases a0 with
      | none =>
        rw [show check_angles ranges ((j0, none) :: rest) =
            (j0, JointStatus.missing) :: check_angles ranges rest by
          simp only [check_angles, hl]] at hmem
        rcases List.mem_cons.mp hmem with hp | hmem'
        · obtain ⟨hj, -⟩ := Prod.mk.inj hp
          subst hj
          exact ⟨none, List.mem_cons_self _ _⟩
        · obtain ⟨a, ha⟩ := ih hmem'
          exact ⟨a, List.mem_cons_of_mem _ ha⟩
      | some x =>
        rw [show check_angles ranges ((j0, some x) :: rest) =
            (j0, if lo0 ≤ x ∧ x ≤ hi0 then JointStatus.ok else JointStatus.error) ::
              check_angles ranges rest by
          simp only [check_angles, hl]] at hmem
        rcases List.mem_cons.mp hmem with hp | hmem'
        · obtain ⟨hj, -⟩ := Prod.mk.inj hp
          subst hj
          exact ⟨some x, List.mem_cons_self _ _⟩
        · obtain ⟨a, ha⟩ := ih hmem'
          exact ⟨a, List.mem_cons_of_mem _ ha⟩

/- ### Claims -/

set_option maxRecDepth 40000 in
/-- C1, counterexample: running the engine from its initial state on the
concrete stream `cexInputs` emits exactly one repetition spanning frames 10
to 24; the frame consumed at index 10 — inside the valley-to-peak cycle —
is flagged as a technique Error by `has_angle_errors` (20° is below the
35° front-view shoulder minimum), the ROM-floor and range-coverage rules
pass, and yet the emitted repetition has `is_complete = true` and an empty
`errors` list: the claimed technique rule does not exist in the code. -/
theorem C1_counterexample :
    (runEngine frontConfig initState cexInputs).repetitions =
      [{ start_frame := 10, end_frame := 24, min_angle := 20, max_angle := 150,
         rom := 130, is_complete := true, errors := [] }] ∧
    cexInputs.getD 10 ([], 0) = (oneJointFrame 20, 10) ∧
    has_angle_errors frontConfig.angle_ranges (oneJointFrame 20) = true := by
  refine ⟨?_, ?_, ?_⟩ <;> with_unfolding_all rfl

/-- C1 (amended): technique errors during the cycle play no role in the
emitted repetition: `is_complete` is exactly the ROM-threshold check on the
cycle's min/max angles, and `errors` is empty iff the repetition is
complete (the only possible failure message is the ROM/thresholds one) —
the technique-failure rule of the claim is never applied. -/
theorem C1_technique_errors_ignored (cfg : RulesConfig) (s : EngineState)
    (angles : JointAngleFrame) (f : Int) (s' : EngineState) (rep : Repetition)
    (h : update_repetition_tracking cfg s angles f = (s', some rep)) :
    rep.is_complete = check_rom_thresholds cfg.rom_thresholds rep.min_angle rep.max_angle ∧
    (rep.errors = [] ↔ rep.is_complete = true) := by
  obtain ⟨fb, -, -, -, -, -, hic, herr, -⟩ := update_some_eq h
  refine ⟨hic, ?_⟩
  rw [herr]
  cases rep.is_complete <;> simp

/-- Witness for C1 (amended) at the concrete emitting step `smallStep`. -/
theorem C1_technique_errors_ignored_witness :
    smallRep.is_complete =
      check_rom_thresholds frontConfig.rom_thresholds smallRep.min_angle smallRep.max_angle ∧
    (smallRep.errors = [] ↔ smallRep.is_complete = true) :=
  C1_technique_errors_ignored frontConfig smallState (oneJointFrame 20) 20
    smallStep.1 smallRep (by with_unfolding_all rfl)

/-- C2: in dual-view mode, a completed repetition whose counterpart stream
never reports one is NOT silently dropped: the `else` branch of the match
block (commented "single view" in the code but reachable only under
`enable_dual_view`) increments `confirmed_reps` immediately, so the counter
goes from 0 to 1 even though the side stream never completed a cycle,
contradicting the claim. -/
theorem C2_unmatched_rep_is_counted :
    initSync.confirmed_reps = 0 ∧
    initSync.recent_side = none ∧
    frontRep.is_complete = true ∧
    (syncOnCompletedRep initSync View.front frontRep 160).confirmed_reps = 1 ∧
    (syncOnCompletedRep initSync View.front frontRep 160).recent_front =
      some (frontRep, 160, true) := by
  refine ⟨rfl, rfl, rfl, ?_, ?_⟩ <;> with_unfolding_all rfl

/-- C3: when the front stream completes a repetition at `start_frame = 100`
and the side stream completes one at `start_frame = 150` (difference 50 <
300) with both `is_complete = true`, the `confirmed_reps` counter
increments by 2, not by exactly 1: the front event first hits the
unmatched `else` branch (+1) and the side event then matches the still
pending front entry (+1). Both pending slots are indeed cleared. -/
theorem C3_matched_pair_counted_twice :
    |sideRep.start_frame - frontRep.start_frame| < SYNC_FRAME_THRESHOLD ∧
    frontRep.is_complete = true ∧
    sideRep.is_complete = true ∧
    (syncOnCompletedRep (syncOnCompletedRep initSync View.front frontRep 160)
        View.side sideRep 210).confirmed_reps = 2 ∧
    (syncOnCompletedRep (syncOnCompletedRep initSync View.front frontRep 160)
        View.side sideRep 210).recent_front = none ∧
    (syncOnCompletedRep (syncOnCompletedRep initSync View.front frontRep 160)
        View.side sideRep 210).recent_side = none := by
  refine ⟨of_decide_eq_true (by with_unfolding_all rfl), rfl, rfl, ?_, ?_, ?_⟩ <;>
    with_unfolding_all rfl

/-- C4: for every emitted repetition, `is_complete` holds iff the ROM floor
(`max − min ≥ 100`) is met AND some joint entry `(low, high)` of the
configured `rom_thresholds` is covered within the 20° tolerance
(`min ≤ low + 20` and `max ≥ high − 20`); when it fails, a failure reason
is appended (the statement holds for every cycle, with or without
technique errors, which is stronger than the claim's error-free guard). -/
theorem C4_completeness_iff_rom_rules (cfg : RulesConfig) (s : EngineState)
    (angles : JointAngleFrame) (f : Int) (s' : EngineState) (rep : Repetition)
    (h : update_repetition_tracking cfg s angles f = (s', some rep)) :
    rep.rom = rep.max_angle - rep.min_angle ∧
    (rep.is_complete = true ↔
      ((100 : ℚ) ≤ rep.max_angle - rep.min_angle ∧
        ∃ e ∈ cfg.rom_thresholds,
          rep.min_angle ≤ e.2.1 + 20 ∧ e.2.2 - 20 ≤ rep.max_angle)) ∧
    (rep.is_complete = false → rep.errors ≠ []) := by
  obtain ⟨fb, -, -, -, -, hrom, hic, herr, -⟩ := update_some_eq h
  refine ⟨hrom, ?_, ?_⟩
  · rw [hic, check_rom_thresholds_iff]
    simp only [MIN_ROM, TOLERANCE]
  · intro hfalse
    rw [herr, hfalse]
    simp

/-- Witness for C4 at the concrete emitting step `smallStep`. -/
theorem C4_completeness_iff_rom_rules_witness :
    smallRep.rom = smallRep.max_angle - smallRep.min_angle ∧
    (smallRep.is_complete = true ↔
      ((100 : ℚ) ≤ smallRep.max_angle - smallRep.min_angle ∧
        ∃ e ∈ frontConfig.rom_thresholds,
          smallRep.min_angle ≤ e.2.1 + 20 ∧ e.2.2 - 20 ≤ smallRep.max_angle)) ∧
    (smallRep.is_complete = false → smallRep.errors ≠ []) :=
  C4_completeness_iff_rom_rules frontConfig smallState (oneJointFrame 20) 20
    smallStep.1 smallRep (by with_unfolding_all rfl)

/-- C5: (1) while the post-ingestion signal history holds fewer than
`2·WINDOW+1 = 21` samples the engine emits nothing and leaves
valley/peak/repetition state untouched; (2) on every ingestion at most one
extremum is acted on (the open-valley slot and the last-peak slot never
both change in one step); (3) no history index is classified as both a
local maximum and a local minimum; (4) a candidate that ties with any
other sample of its symmetric window is disqualified as either extremum. -/
theorem C5_extremum_detector_discipline :
    (∀ (cfg : RulesConfig) (s : EngineState) (angles : JointAngleFrame) (f : Int)
        (s' : EngineState) (out : Option Repetition),
      s.angle_history.length + 1 < 2 * PEAK_DETECTION_WINDOW + 1 →
      update_repetition_tracking cfg s angles f = (s', out) →
      out = none ∧ s'.last_valley_frame = s.last_valley_frame ∧
        s'.last_valley_angle = s.last_valley_angle ∧
        s'.last_peak_frame = s.last_peak_frame ∧
        s'.last_peak_angle = s.last_peak_angle ∧
        s'.repetitions = s.repetitions) ∧
    (∀ (cfg : RulesConfig) (s : EngineState) (angles : JointAngleFrame) (f : Int)
        (s' : EngineState) (out : Option Repetition),
      update_repetition_tracking cfg s angles f = (s', out) →
      (s'.last_valley_frame = s.last_valley_frame ∧
        s'.last_valley_angle = s.last_valley_angle) ∨
      (s'.last_peak_frame = s.last_peak_frame ∧
        s'.last_peak_angle = s.last_peak_angle)) ∧
    (∀ (hist : List (Int × ℚ)) (idx : Nat),
      ¬(is_local_maximum hist idx = true ∧ is_local_minimum hist idx = true)) ∧
    (∀ (hist : List (Int × ℚ)) (idx j : Nat),
      j ≠ idx → idx - PEAK_DETECTION_WINDOW ≤ j → j ≤ idx + PEAK_DETECTION_WINDOW →
      histVal hist j = histVal hist idx →
      is_local_maximum hist idx = false ∧ is_local_minimum hist idx = false) :=
  ⟨fun _ _ _ _ _ _ hlen h => update_short_history hlen h,
   fun _ _ _ _ _ _ h => update_one_extremum h,
   not_max_and_min,
   tie_disqualifies⟩

/-- Witness for C5: the first ingested frame (history length 1 < 21)
produces no event and no state change, and on the flat 21-sample history
the tied candidate at index 10 is rejected as both maximum and minimum. -/
theorem C5_extremum_detector_discipline_witness :
    ((update_repetition_tracking frontConfig initState (oneJointFrame 20) 0).2 = none ∧
      (update_repetition_tracking frontConfig initState (oneJointFrame 20) 0).1.last_valley_frame =
        initState.last_valley_frame ∧
      (update_repetition_tracking frontConfig initState (oneJointFrame 20) 0).1.last_valley_angle =
        initState.last_valley_angle ∧
      (update_repetition_tracking frontConfig initState (oneJointFrame 20) 0).1.last_peak_frame =
        initState.last_peak_frame ∧
      (update_repetition_tracking frontConfig initState (oneJointFrame 20) 0).1.last_peak_angle =
        initState.last_peak_angle ∧
      (update_repetition_tracking frontConfig initState (oneJointFrame 20) 0).1.repetitions =
        initState.repetitions) ∧
    ¬(is_local_maximum flatHist 10 = true ∧ is_local_minimum flatHist 10 = true) ∧
    (is_local_maximum flatHist 10 = false ∧ is_local_minimum flatHist 10 = false) :=
  ⟨C5_extremum_detector_discipline.1 frontConfig initState (oneJointFrame 20) 0 _ _
      (by decide) rfl,
   C5_extremum_detector_discipline.2.2.1 flatHist 10,
   C5_extremum_detector_discipline.2.2.2 flatHist 10 9
      (by decide) (by decide) (by decide) (by with_unfolding_all rfl)⟩

/-- C6: `has_angle_errors` is true iff some joint of the frame has a present
(non-`None`) angle, is configured in the active range table, and lies
strictly outside its inclusive `[min, max]` range; in particular a joint
with no angle data (whose status is Missing) can never make it true, since
the right-hand side requires a present angle. -/
theorem C6_has_errors_iff (ranges : List (String × ℚ × ℚ)) (angles : JointAngleFrame) :
    has_angle_errors ranges angles = true ↔
      ∃ j a lo hi, (j, some a) ∈ angles ∧ lookupJoint j ranges = some (lo, hi) ∧
        ¬(lo ≤ a ∧ a ≤ hi) := by
  induction angles with
  | nil => simp [has_angle_errors, check_angles]
  | cons p rest ih =>
    obtain ⟨j0, a0⟩ := p
    cases hl : lookupJoint j0 ranges with
    | none =>
      have hstep : has_angle_errors ranges ((j0, a0) :: rest) =
          has_angle_errors ranges rest := by
        simp only [has_angle_errors, check_angles, hl]
      rw [hstep, ih]
      constructor
      · rintro ⟨j, a, lo, hi, hmem, hlk, hout⟩
        exact ⟨j, a, lo, hi, List.mem_cons_of_mem _ hmem, hlk, hout⟩
      · rintro ⟨j, a, lo, hi, hmem, hlk, hout⟩
        rcases List.mem_cons.mp hmem with hp | hmem'
        · obtain ⟨hj, ha⟩ := Prod.mk.inj hp
          subst hj
          exact absurd (hl.symm.trans hlk) (by simp)
        · exact ⟨j, a, lo, hi, hmem', hlk, hout⟩
    | some lohi =>
      obtain ⟨lo0, hi0⟩ := lohi
      cases a0 with
      | none =>
        have hstep : has_angle_errors ranges ((j0, none) :: rest) =
            has_angle_errors ranges rest := by
          simp [has_angle_errors, check_angles, hl]
        rw [hstep, ih]
        constructor
        · rintro ⟨j, a, lo, hi, hmem, hlk, hout⟩
          exact ⟨j, a, lo, hi, List.mem_cons_of_mem _ hmem, hlk, hout⟩
        · rintro ⟨j, a, lo, hi, hmem, hlk, hout⟩
          rcases List.mem_cons.mp hmem with hp | hmem'
          · obtain ⟨hj, ha⟩ := Prod.mk.inj hp
            exact absurd ha (by simp)
          · exact ⟨j, a, lo, hi, hmem', hlk, hout⟩
      | some x =>
        by_cases hin : lo0 ≤ x ∧ x ≤ hi0
        · have hstep : has_angle_errors ranges ((j0, some x) :: rest) =
              has_angle_errors ranges rest := by
            simp [has_angle_errors, check_angles, hl, hin]
          rw [hstep, ih]
          constructor
          · rintro ⟨j, a, lo, hi, hmem, hlk, hout⟩
            exact ⟨j, a, lo, hi, List.mem_cons_of_mem _ hmem, hlk, hout⟩
          · rintro ⟨j, a, lo, hi, hmem, hlk, hout⟩
            rcases List.mem_cons.mp hmem with hp | hmem'
            · obtain ⟨hj, ha⟩ := Prod.mk.inj hp
              subst hj
              have : (lo, hi) = (lo0, hi0) := Option.some.inj (hlk.symm.trans hl)
              obtain ⟨hlo, hhi⟩ := Prod.mk.inj this
              subst hlo; subst hhi
              rw [← Option.some.inj ha] at hin
              exact absurd hin hout
            · exact ⟨j, a, lo, hi, hmem', hlk, hout⟩
        · have hstep : has_angle_errors ranges ((j0, some x) :: rest) = true := by
            simp [has_angle_errors, check_angles, hl, hin]
          rw [hstep]
          exact iff_of_true rfl ⟨j0, x, lo0, hi0, List.mem_cons_self _ _, hl, hin⟩

/-- Witness for C6: a front-view frame with `left_shoulder = 20°` (below the
35° floor) is reported as erroneous. -/
theorem C6_has_errors_iff_witness :
    has_angle_errors frontConfig.angle_ranges (oneJointFrame 20) = true :=
  (C6_has_errors_iff frontConfig.angle_ranges (oneJointFrame 20)).mpr
    ⟨"left_shoulder", 20, 35, 180, List.mem_singleton.mpr rfl,
     by with_unfolding_all rfl,
     fun hc => absurd hc.1 (of_decide_eq_false (by with_unfolding_all rfl))⟩

/-- C7, counterexample: `left_shoulder` is configured in the front-view
range table, yet `check_angles` on the empty frame (a frame the live loop
really produces when no landmarks are detected) returns no status at all —
in particular no `Missing` entry for `left_shoulder` — because the code
iterates over the frame's keys, not over the range table's. -/
theorem C7_counterexample :
    (lookupJoint "left_shoulder" frontConfig.angle_ranges).isSome = true ∧
    check_angles frontConfig.angle_ranges [] = [] ∧
    ("left_shoulder", JointStatus.missing) ∉ check_angles frontConfig.angle_ranges [] := by
  refine ⟨by with_unfolding_all rfl, rfl, by simp [check_angles]⟩

/-- C7 (amended): `check_angles` returns a status exactly for the joints
present in BOTH the frame and the range table: every reported joint is
configured in the table (so unconfigured joints never appear) AND has an
entry in the frame (so a joint configured in the table but absent from the
frame receives no status at all), and every frame entry of a configured
joint is reported with `Missing` when its angle is `None`, `Ok` when
`min ≤ angle ≤ max`, and `Error` otherwise. -/
theorem C7_check_angles_statuses (ranges : List (String × ℚ × ℚ))
    (angles : JointAngleFrame) :
    (∀ j st, (j, st) ∈ check_angles ranges angles →
      (lookupJoint j ranges).isSome = true) ∧
    (∀ j st, (j, st) ∈ check_angles ranges angles →
      ∃ a, (j, a) ∈ angles) ∧
    (∀ j a lo hi, (j, a) ∈ angles → lookupJoint j ranges = some (lo, hi) →
      (j, statusOf a lo hi) ∈ check_angles ranges angles) :=
  ⟨fun j st h => check_angles_key_configured ranges angles j st h,
   fun j st h => check_angles_key_in_frame ranges angles j st h,
   fun j a lo hi h1 h2 => check_angles_reports ranges angles j a lo hi h1 h2⟩

/-- Witness for C7 (amended): the out-of-range `left_shoulder = 10°` frame
is reported (with `statusOf (some 10) 35 180 = Error`), the reported joint
is configured, and it indeed stems from a frame entry. -/
theorem C7_check_angles_statuses_witness :
    ("left_shoulder", statusOf (some 10) 35 180) ∈
      check_angles frontConfig.angle_ranges (oneJointFrame 10) ∧
    (lookupJoint "left_shoulder" frontConfig.angle_ranges).isSome = true ∧
    (∃ a, ("left_shoulder", a) ∈ oneJointFrame 10) := by
  have hmem := (C7_check_angles_statuses frontConfig.angle_ranges (oneJointFrame 10)).2.2
    "left_shoulder" (some 10) 35 180 (List.mem_singleton.mpr rfl)
    (by with_unfolding_all rfl)
  exact ⟨hmem,
    (C7_check_angles_statuses frontConfig.angle_ranges (oneJointFrame 10)).1
      "left_shoulder" (statusOf (some 10) 35 180) hmem,
    (C7_check_angles_statuses frontConfig.angle_ranges (oneJointFrame 10)).2.1
      "left_shoulder" (statusOf (some 10) 35 180) hmem⟩

/-- C8: the repetition log only changes by appending the emitted repetition,
and every emitted repetition satisfies `min_angle ≤ max_angle`,
`rom = max_angle − min_angle ≥ 0` and `is_complete → errors = []`;
moreover `min_angle`/`max_angle` are attained by and bound every
signal-history sample whose frame index lies in
`[start_frame, end_frame]` inclusive — i.e. they are the true min/max of
the whole windowed span, not merely the valley/peak values. -/
theorem C8_repetition_invariants (cfg : RulesConfig) (s : EngineState)
    (angles : JointAngleFrame) (f : Int) (s' : EngineState) (out : Option Repetition)
    (h : update_repetition_tracking cfg s angles f = (s', out)) :
    (out = none → s'.repetitions = s.repetitions) ∧
    (∀ rep, out = some rep →
      s'.repetitions = s.repetitions ++ [rep] ∧
      rep.min_angle ≤ rep.max_angle ∧
      rep.rom = rep.max_angle - rep.min_angle ∧
      0 ≤ rep.rom ∧
      (rep.is_complete = true → rep.errors = []) ∧
      rep.min_angle ∈ (s'.angle_history.filter (fun p =>
        decide (rep.start_frame ≤ p.1) && decide (p.1 ≤ rep.end_frame))).map Prod.snd ∧
      rep.max_angle ∈ (s'.angle_history.filter (fun p =>
        decide (rep.start_frame ≤ p.1) && decide (p.1 ≤ rep.end_frame))).map Prod.snd ∧
      ∀ x ∈ (s'.angle_history.filter (fun p =>
        decide (rep.start_frame ≤ p.1) && decide (p.1 ≤ rep.end_frame))).map Prod.snd,
        rep.min_angle ≤ x ∧ x ≤ rep.max_angle) := by
  constructor
  · intro hnone
    rw [hnone] at h
    exact update_none_reps h
  · intro rep hsome
    rw [hsome] at h
    obtain ⟨fb, hne, hfb, hmin, hmax, hrom, -, herr, hreps⟩ := update_some_eq h
    have hminmem : rep.min_angle ∈ fb := hmin ▸ listMin_mem fb hne
    have hmaxmem : rep.max_angle ∈ fb := hmax ▸ listMax_mem fb hne
    have hminle : rep.min_angle ≤ rep.max_angle := by
      rw [hmin]; exact listMin_le fb _ hmaxmem
    refine ⟨hreps, hminle, hrom, by rw [hrom]; exact sub_nonneg.mpr hminle, ?_, ?_, ?_, ?_⟩
    · intro hc; rw [herr, hc]; rfl
    · exact hfb ▸ hminmem
    · exact hfb ▸ hmaxmem
    · intro x hx
      rw [← hfb] at hx
      exact ⟨hmin ▸ listMin_le fb x hx, hmax ▸ le_listMax fb x hx⟩

/-- Witness for C8 at the concrete emitting step `smallStep`. -/
theorem C8_repetition_invariants_witness :
    smallStep.1.repetitions = smallState.repetitions ++ [smallRep] ∧
    smallRep.min_angle ≤ smallRep.max_angle ∧
    smallRep.rom = smallRep.max_angle - smallRep.min_angle ∧
    (0 : ℚ) ≤ smallRep.rom ∧
    (smallRep.is_complete = true → smallRep.errors = []) ∧
    smallRep.min_angle ∈ (smallStep.1.angle_history.filter (fun p =>
      decide (smallRep.start_frame ≤ p.1) && decide (p.1 ≤ smallRep.end_frame))).map Prod.snd ∧
    smallRep.max_angle ∈ (smallStep.1.angle_history.filter (fun p =>
      decide (smallRep.start_frame ≤ p.1) && decide (p.1 ≤ smallRep.end_frame))).map Prod.snd ∧
    ∀ x ∈ (smallStep.1.angle_history.filter (fun p =>
      decide (smallRep.start_frame ≤ p.1) && decide (p.1 ≤ smallRep.end_frame))).map Prod.snd,
      smallRep.min_angle ≤ x ∧ x ≤ smallRep.max_angle :=
  (C8_repetition_invariants frontConfig smallState (oneJointFrame 20) 20
      smallStep.1 smallStep.2 rfl).2 smallRep (by with_unfolding_all rfl)

/-- C9: the summary of an empty log is all zeros with `avg_rom = 0` (not
NaN — in this exact embedding the division never happens on the empty log);
on a non-empty log it returns the log's length, the number of complete
repetitions (`countP`), their difference, and the arithmetic mean of all
ROMs; the spec's worked example `[120, 100, 80]` with completeness
`[true, true, false]` yields `⟨3, 2, 1, 100⟩`. The function is a pure
aggregation of the log, so recomputation cannot change the result. -/
theorem C9_summary_spec :
    get_repetition_summary [] =
      { total_reps := 0, complete_reps := 0, incomplete_reps := 0, avg_rom := 0 } ∧
    (∀ reps : List Repetition, reps ≠ [] →
      (get_repetition_summary reps).total_reps = reps.length ∧
      (get_repetition_summary reps).complete_reps =
        reps.countP (fun r => r.is_complete) ∧
      (get_repetition_summary reps).incomplete_reps =
        reps.length - reps.countP (fun r => r.is_complete) ∧
      (get_repetition_summary reps).avg_rom =
        (reps.map (fun r => r.rom)).sum / (reps.length : ℚ)) ∧
    get_repetition_summary demoReps =
      { total_reps := 3, complete_reps := 2, incomplete_reps := 1, avg_rom := 100 } := by
  refine ⟨rfl, ?_, by with_unfolding_all rfl⟩
  intro reps hne
  unfold get_repetition_summary
  rw [if_neg hne]
  exact ⟨rfl, (List.countP_eq_length_filter _ _).symm,
    by rw [List.countP_eq_length_filter], rfl⟩

/-- Witness for C9 on the worked-example log `demoReps`. -/
theorem C9_summary_spec_witness :
    (get_repetition_summary demoReps).total_reps = demoReps.length ∧
    (get_repetition_summary demoReps).complete_reps =
      demoReps.countP (fun r => r.is_complete) ∧
    (get_repetition_summary demoReps).incomplete_reps =
      demoReps.length - demoReps.countP (fun r => r.is_complete) ∧
    (get_repetition_summary demoReps).avg_rom =
      (demoReps.map (fun r => r.rom)).sum / (demoReps.length : ℚ) :=
  C9_summary_spec.2.1 demoReps (by simp [demoReps])

/-- C10: a frame in which no primary joint has a present angle (so the
reduced signal is `None`) leaves the engine completely unchanged and
returns no repetition: nothing is appended to the signal history, the open
valley, last peak and repetition log are exactly as before. -/
theorem C10_no_signal_no_state_change (cfg : RulesConfig) (s : EngineState)
    (angles : JointAngleFrame) (f : Int)
    (h : ∀ j ∈ cfg.primary_joints, ∀ a : ℚ, lookupJoint j angles ≠ some (some a)) :
    update_repetition_tracking cfg s angles f = (s, none) := by
  unfold update_repetition_tracking
  rw [get_average_angle_none h]

/-- Witness for C10: the live loop's empty frame (`angles = {}`) at frame 0
leaves the initial state untouched. -/
theorem C10_no_signal_no_state_change_witness :
    update_repetition_tracking frontConfig initState [] 0 = (initState, none) :=
  C10_no_signal_no_state_change frontConfig initState [] 0
    (fun j _ a => by simp [lookupJoint])

end CyberCoach
